import Mathlib

/-!
Shallow embedding of the BioSTEAM recycle-convergence engine and of the
LCA query layer, used to check the repository's specification.  The
repository snapshot holds only documentation (tutorial notebooks on
process specifications, unit decorators, unit creation, agile systems and
life cycle assessment, plus a rendered flowsheet diagram); the engine
itself (`Stream`, `Unit`, the flowsheet graph, the Convergence Solver and
`System`) is not among the source files, so every definition below is
modelled from the specification's words, as recorded in its doc comment.
Rational numbers stand in for the floating-point quantities of the
implementation so that all definitions are executable and exact.
-/

namespace BioSteam

/-- Modelled from the spec: the `Stream` record of the data model (spec section 3),
an ordered mapping of component quantities together with temperature and
pressure.  The phase label plays no role in any claim and is omitted. -/
structure Stream where
  flow : List ℚ
  T : ℚ
  P : ℚ
  deriving Repr, DecidableEq

/-- Modelled from the spec: relative-error normalization of a difference,
"guarding against division by a near-zero baseline (fallback to absolute
comparison below a small flow threshold)" (spec section 4.3); `eps` is the
small threshold. -/
def relDiff (eps a b : ℚ) : ℚ :=
  if |a| ≤ eps then |b - a| else |b - a| / |a|

/-- Modelled from the spec: normalized difference of the flow family,
the maximum of the per-component normalized differences. -/
def flowDist (eps : ℚ) (xs ys : List ℚ) : ℚ :=
  (List.zipWith (relDiff eps) xs ys).foldr max 0

/-- Modelled from the spec: the convergence distance between two successive
tear-stream values, "the maximum of the normalized differences" over the
quantity families flow, temperature and pressure (spec section 4.3). -/
def distance (eps : ℚ) (x y : Stream) : ℚ :=
  max (flowDist eps x.flow y.flow)
    (max (relDiff eps x.T y.T) (relDiff eps x.P y.P))

/-- Modelled from the spec: the dampened-substitution next guess
`x_n + damping * (x_{n+1} - x_n)`, applied on every quantity family
(spec section 4.3). -/
def dampUpd (w : ℚ) (x x1 : Stream) : Stream :=
  { flow := List.zipWith (fun a b => a + w * (b - a)) x.flow x1.flow
    T := x.T + w * (x1.T - x.T)
    P := x.P + w * (x1.P - x.P) }

/-- Modelled from the spec: the raw Wegstein extrapolation for one scalar
quantity from the last two iterate pairs.  The spec leaves the exact
acceleration formula open (section 9); Wegstein is the standard choice
documented here. -/
def wegRaw (xp fxp x fx : ℚ) : ℚ :=
  let s := (fx - fxp) / (x - xp)
  let q := s / (s - 1)
  q * x + (1 - q) * fx

/-- Modelled from the spec: numerical instability of the extrapolation for
one scalar quantity, a "denominator near zero" in either the slope or the
acceleration weight (spec section 4.3). -/
def wegUnstable (eps xp fxp x fx : ℚ) : Bool :=
  decide (|x - xp| ≤ eps) || decide (|(fx - fxp) / (x - xp) - 1| ≤ eps)

/-- Modelled from the spec: instability of the extrapolated stream update in
any quantity family. -/
def streamUnstable (eps : ℚ) (xp fxp x fx : Stream) : Bool :=
  (List.zip (List.zip xp.flow fxp.flow) (List.zip x.flow fx.flow)).any
    (fun p => wegUnstable eps p.1.1 p.1.2 p.2.1 p.2.2)
  || wegUnstable eps xp.T fxp.T x.T fx.T
  || wegUnstable eps xp.P fxp.P x.P fx.P

/-- Modelled from the spec: the extrapolated candidate stream built
componentwise from the last two iterate pairs. -/
def accelCandidate (xp fxp x fx : Stream) : Stream :=
  { flow := (List.zip (List.zip xp.flow fxp.flow) (List.zip x.flow fx.flow)).map
      (fun p => wegRaw p.1.1 p.1.2 p.2.1 p.2.2)
    T := wegRaw xp.T fxp.T x.T fx.T
    P := wegRaw xp.P fxp.P x.P fx.P }

/-- Modelled from the spec: a physically invalid (negative) flow component
(spec sections 4.3 and 7). -/
def hasNegFlow (s : Stream) : Bool :=
  s.flow.any (fun q => decide (q < 0))

/-- Modelled from the spec: the accelerated update, which "falls back to
dampened substitution if the extrapolation is numerically unstable
(denominator near zero) or would produce a negative/physically invalid
flow" (spec section 4.3). -/
def accelUpd (eps w : ℚ) (xp fxp x fx : Stream) : Stream :=
  let cand := accelCandidate xp fxp x fx
  if streamUnstable eps xp fxp x fx || hasNegFlow cand then dampUpd w x fx
  else cand

/-- Modelled from the spec: an update rule fed the previous iterate pair
(when one exists), the snapshot and the recomputed candidate. -/
def UpdateRule : Type :=
  Option (Stream × Stream) → Stream → Stream → Stream

/-- Modelled from the spec: direct substitution, next guess `x_{n+1}`. -/
def directUpdate : UpdateRule := fun _ _ x1 => x1

/-- Modelled from the spec: dampened substitution as an update rule. -/
def dampenedUpdate (w : ℚ) : UpdateRule := fun _ x x1 => dampUpd w x x1

/-- Modelled from the spec: the accelerated update rule, using the last two
iterate pairs and falling back to dampened substitution on the first
iteration, when no history exists yet. -/
def acceleratedUpdate (eps w : ℚ) : UpdateRule := fun hist x fx =>
  match hist with
  | none => dampUpd w x fx
  | some (xp, fxp) => accelUpd eps w xp fxp x fx

/-- Modelled from the spec: the terminal states of the per-loop state
machine `Initial → Iterating → {Converged, MaxIterationsExceeded,
UnitFailure}` (spec section 4.3), each carrying the observable outputs
named in section 4.4: final stream state, iteration count and final
distance. -/
inductive Outcome
  | Converged (x : Stream) (iters : ℕ) (d : ℚ)
  | MaxIterationsExceeded (x : Stream) (iters : ℕ) (d : ℚ)
  | UnitFailure (iters : ℕ)
  deriving Repr, DecidableEq

/-- Iteration count reported by a terminal state. -/
def Outcome.iters : Outcome → ℕ
  | Converged _ k _ => k
  | MaxIterationsExceeded _ k _ => k
  | UnitFailure k => k

/-- Best-effort stream state of a terminal state, when one exists. -/
def Outcome.state : Outcome → Option Stream
  | Converged x _ _ => some x
  | MaxIterationsExceeded x _ _ => some x
  | UnitFailure _ => none

/-- Modelled from the spec: one iterating pass of the Convergence Solver
(spec section 4.3): snapshot `x_n`, run the loop body to get the candidate
`x_{n+1}` (`none` models a unit raising a numerical error, giving
`UnitFailure`), compare at tolerance, either transition to `Converged`
with final state `x_{n+1}`, or feed the update rule's next guess back into
the tear stream; the counter is incremented and `MaxIterationsExceeded`
is entered when it reaches the maximum.  `fuel` is the number of
iterations still allowed and `done` the number already performed. -/
def solveLoop (run : Stream → Option Stream) (tol eps : ℚ) (upd : UpdateRule) :
    ℕ → ℕ → Option (Stream × Stream) → Stream → Outcome
  | 0, done, _, x => Outcome.MaxIterationsExceeded x done 0
  | fuel + 1, done, hist, x =>
    match run x with
    | none => Outcome.UnitFailure (done + 1)
    | some x1 =>
      let d := distance eps x x1
      if d ≤ tol then Outcome.Converged x1 (done + 1) d
      else if fuel = 0 then
        Outcome.MaxIterationsExceeded (upd hist x x1) (done + 1) d
      else solveLoop run tol eps upd fuel (done + 1) (some (x, x1)) (upd hist x x1)

/-- Modelled from the spec: the explicit convergence configuration record
(spec sections 6 and 9): numeric tolerance, maximum iteration count, and
the small baseline threshold of the relative-difference normalization. -/
structure Config where
  tol : ℚ
  maxiter : ℕ
  eps : ℚ

/-- Modelled from the spec: solving one recycle loop from the initial
tear-stream guess, with no iterate history yet. -/
def solve (run : Stream → Option Stream) (cfg : Config) (upd : UpdateRule)
    (x0 : Stream) : Outcome :=
  solveLoop run cfg.tol cfg.eps upd cfg.maxiter 0 none x0

/-- Modelled from the spec: the `ConvergenceWarning` payload, "surfaced as
a warning with the final distance and iteration count" (spec section 7). -/
structure ConvergenceWarning where
  finalDistance : ℚ
  iterations : ℕ
  deriving Repr, DecidableEq

/-- Modelled from the spec: what a System-level resolve returns to the
caller (spec section 7): a converged state, or the best-effort state
together with a non-fatal `ConvergenceWarning`, or a fatal failure. -/
inductive SimResult
  | ok (x : Stream) (iters : ℕ)
  | warned (w : ConvergenceWarning) (x : Stream)
  | failed (iters : ℕ)
  deriving Repr, DecidableEq

/-- Modelled from the spec: System orchestration of one loop resolve (spec
sections 4.4 and 7): `MaxIterationsExceeded` is turned into a non-fatal
warning that still returns the non-converged stream state. -/
def simulate (run : Stream → Option Stream) (cfg : Config) (upd : UpdateRule)
    (x0 : Stream) : SimResult :=
  match solve run cfg upd x0 with
  | Outcome.Converged x k _ => SimResult.ok x k
  | Outcome.MaxIterationsExceeded x k d => SimResult.warned ⟨d, k⟩ x
  | Outcome.UnitFailure k => SimResult.failed k

theorem relDiff_nonneg (eps a b : ℚ) : 0 ≤ relDiff eps a b := by
  unfold relDiff
  split
  · exact abs_nonneg _
  · exact div_nonneg (abs_nonneg _) (abs_nonneg _)

theorem foldr_max_nonneg (l : List ℚ) : 0 ≤ l.foldr max 0 := by
  induction l with
  | nil => exact le_refl 0
  | cons a l ih => exact le_trans ih (le_max_right a _)

theorem distance_nonneg (eps : ℚ) (x y : Stream) : 0 ≤ distance eps x y := by
  unfold distance flowDist
  exact le_trans (foldr_max_nonneg _) (le_max_left _ _)

theorem relDiff_self (eps a : ℚ) : relDiff eps a a = 0 := by
  unfold relDiff
  simp

theorem flowDist_self (eps : ℚ) (l : List ℚ) : flowDist eps l l = 0 := by
  unfold flowDist
  induction l with
  | nil => rfl
  | cons a l ih =>
    simp only [List.zipWith_cons_cons, List.foldr_cons, relDiff_self]
    simp only [flowDist] at ih
    rw [ih]
    simp

theorem distance_self (eps : ℚ) (x : Stream) : distance eps x x = 0 := by
  unfold distance
  rw [flowDist_self, relDiff_self, relDiff_self]
  simp

theorem solveLoop_zero (run : Stream → Option Stream) (tol eps : ℚ)
    (upd : UpdateRule) (done : ℕ) (hist : Option (Stream × Stream)) (x : Stream) :
    solveLoop run tol eps upd 0 done hist x
      = Outcome.MaxIterationsExceeded x done 0 := rfl

theorem solveLoop_succ_fail (run : Stream → Option Stream) (tol eps : ℚ)
    (upd : UpdateRule) (fuel done : ℕ) (hist : Option (Stream × Stream))
    (x : Stream) (hr : run x = none) :
    solveLoop run tol eps upd (fuel + 1) done hist x
      = Outcome.UnitFailure (done + 1) := by
  rw [solveLoop, hr]

theorem solveLoop_succ_conv (run : Stream → Option Stream) (tol eps : ℚ)
    (upd : UpdateRule) (fuel done : ℕ) (hist : Option (Stream × Stream))
    (x x1 : Stream) (hr : run x = some x1) (hd : distance eps x x1 ≤ tol) :
    solveLoop run tol eps upd (fuel + 1) done hist x
      = Outcome.Converged x1 (done + 1) (distance eps x x1) := by
  rw [solveLoop, hr]
  simp [hd]

theorem solveLoop_succ_last (run : Stream → Option Stream) (tol eps : ℚ)
    (upd : UpdateRule) (done : ℕ) (hist : Option (Stream × Stream))
    (x x1 : Stream) (hr : run x = some x1) (hd : ¬ distance eps x x1 ≤ tol) :
    solveLoop run tol eps upd (0 + 1) done hist x
      = Outcome.MaxIterationsExceeded (upd hist x x1) (done + 1) (distance eps x x1) := by
  rw [solveLoop, hr]
  simp [hd]

theorem solveLoop_succ_step (run : Stream → Option Stream) (tol eps : ℚ)
    (upd : UpdateRule) (fuel done : ℕ) (hist : Option (Stream × Stream))
    (x x1 : Stream) (hr : run x = some x1) (hd : ¬ distance eps x x1 ≤ tol)
    (hf : fuel ≠ 0) :
    solveLoop run tol eps upd (fuel + 1) done hist x
      = solveLoop run tol eps upd fuel (done + 1) (some (x, x1)) (upd hist x x1) := by
  rw [solveLoop, hr]
  simp [hd, hf]

theorem solveLoop_iters_le (run : Stream → Option Stream) (tol eps : ℚ)
    (upd : UpdateRule) :
    ∀ (fuel done : ℕ) (hist : Option (Stream × Stream)) (x : Stream),
      (solveLoop run tol eps upd fuel done hist x).iters ≤ done + fuel := by
  intro fuel
  induction fuel with
  | zero =>
    intro done hist x
    rw [solveLoop_zero]
    exact Nat.le_add_right done 0
  | succ n ih =>
    intro done hist x
    cases hr : run x with
    | none =>
      rw [solveLoop_succ_fail run tol eps upd n done hist x hr]
      simp [Outcome.iters]
    | some x1 =>
      by_cases hd : distance eps x x1 ≤ tol
      · rw [solveLoop_succ_conv run tol eps upd n done hist x x1 hr hd]
        simp [Outcome.iters]
      · by_cases hn : n = 0
        · subst hn
          rw [solveLoop_succ_last run tol eps upd done hist x x1 hr hd]
          simp [Outcome.iters]
        · rw [solveLoop_succ_step run tol eps upd n done hist x x1 hr hd hn]
          calc (solveLoop run tol eps upd n (done + 1) (some (x, x1))
                  (upd hist x x1)).iters
              ≤ (done + 1) + n := ih (done + 1) (some (x, x1)) (upd hist x x1)
            _ ≤ done + (n + 1) := by omega

theorem solveLoop_converged_iters_gt (run : Stream → Option Stream) (tol eps : ℚ)
    (upd : UpdateRule) :
    ∀ (fuel done : ℕ) (hist : Option (Stream × Stream)) (x y : Stream)
      (k : ℕ) (d : ℚ),
      solveLoop run tol eps upd fuel done hist x = Outcome.Converged y k d →
      done < k := by
  intro fuel
  induction fuel with
  | zero =>
    intro done hist x y k d h
    rw [solveLoop_zero] at h
    exact absurd h (by simp)
  | succ n ih =>
    intro done hist x y k d h
    cases hr : run x with
    | none =>
      rw [solveLoop_succ_fail run tol eps upd n done hist x hr] at h
      exact absurd h (by simp)
    | some x1 =>
      by_cases hd : distance eps x x1 ≤ tol
      · rw [solveLoop_succ_conv run tol eps upd n done hist x x1 hr hd] at h
        have : k = done + 1 := (Outcome.Converged.injEq _ _ _ _ _ _).mp h |>.2.1.symm
        omega
      · by_cases hn : n = 0
        · subst hn
          rw [solveLoop_succ_last run tol eps upd done hist x x1 hr hd] at h
          exact absurd h (by simp)
        · rw [solveLoop_succ_step run tol eps upd n done hist x x1 hr hd hn] at h
          have := ih (done + 1) (some (x, x1)) (upd hist x x1) y k d h
          omega

theorem solveLoop_maxIter_of_divergent (tol eps : ℚ) (upd : UpdateRule)
    (f : Stream → Stream) (hdiv : ∀ x : Stream, tol < distance eps x (f x)) :
    ∀ (n done : ℕ) (hist : Option (Stream × Stream)) (x : Stream),
      ∃ y d, solveLoop (fun z => some (f z)) tol eps upd (n + 1) done hist x
        = Outcome.MaxIterationsExceeded y (done + (n + 1)) d := by
  intro n
  induction n with
  | zero =>
    intro done hist x
    refine ⟨upd hist x (f x), distance eps x (f x), ?_⟩
    exact solveLoop_succ_last (fun z => some (f z)) tol eps upd done hist x (f x)
      rfl (not_le.mpr (hdiv x))
  | succ m ih =>
    intro done hist x
    rw [solveLoop_succ_step (fun z => some (f z)) tol eps upd (m + 1) done hist
      x (f x) rfl (not_le.mpr (hdiv x)) (Nat.succ_ne_zero m)]
    obtain ⟨y, d, h⟩ := ih (done + 1) (some (x, f x)) (upd hist x (f x))
    refine ⟨y, d, ?_⟩
    rw [h]
    congr 1
    omega

/-- C1: for every recycle loop configured with maximum iteration count N
and every loop body, the Convergence Solver performs at most N iterations;
when the convergence criterion is never met it terminates in the
`MaxIterationsExceeded` state at exactly iteration N, never looping
indefinitely. -/
theorem iteration_cap_respected (cfg : Config) (upd : UpdateRule)
    (f : Stream → Stream) (x0 : Stream) (hN : 0 < cfg.maxiter)
    (hdiv : ∀ x : Stream, cfg.tol < distance cfg.eps x (f x)) :
    (∀ (run : Stream → Option Stream) (u : UpdateRule) (y : Stream),
        (solve run cfg u y).iters ≤ cfg.maxiter) ∧
    ∃ y d, solve (fun z => some (f z)) cfg upd x0
        = Outcome.MaxIterationsExceeded y cfg.maxiter d := by
  constructor
  · intro run u y
    have := solveLoop_iters_le run cfg.tol cfg.eps u cfg.maxiter 0 none y
    simpa [solve] using this
  · obtain ⟨m, hm⟩ := Nat.exists_eq_add_of_lt hN
    have h := solveLoop_maxIter_of_divergent cfg.tol cfg.eps upd f hdiv m 0 none x0
    obtain ⟨y, d, hy⟩ := h
    refine ⟨y, d, ?_⟩
    rw [solve, hm]
    simpa using hy

theorem iteration_cap_respected_witness :
    ∃ y d,
      solve (fun z => some z) ⟨-1, 2, 0⟩ directUpdate ⟨[], 0, 0⟩
        = Outcome.MaxIterationsExceeded y 2 d :=
  (iteration_cap_respected ⟨-1, 2, 0⟩ directUpdate (fun z => z) ⟨[], 0, 0⟩
    (by decide)
    (fun x => lt_of_lt_of_le (by norm_num) (distance_nonneg 0 x x))).2

/-- C2: the distance used by the Convergence Solver is the maximum over
the quantity families flow, temperature and pressure of the normalized
relative differences, with a fallback to absolute comparison when the
baseline magnitude is at most the small threshold (so no division by a
near-zero baseline occurs), and an iterating pass transitions to
`Converged`, leaving `x_{n+1}` as the final tear-stream state, exactly
when that distance is within tolerance. -/
theorem distance_criterion_and_convergence (run : Stream → Option Stream)
    (tol eps : ℚ) (upd : UpdateRule) (fuel done : ℕ)
    (hist : Option (Stream × Stream)) (x x1 : Stream)
    (hr : run x = some x1) :
    (∀ y z : Stream, distance eps y z
        = max (flowDist eps y.flow z.flow)
            (max (relDiff eps y.T z.T) (relDiff eps y.P z.P))) ∧
    (∀ a b : ℚ, |a| ≤ eps → relDiff eps a b = |b - a|) ∧
    (∀ a b : ℚ, eps < |a| → relDiff eps a b = |b - a| / |a|) ∧
    (solveLoop run tol eps upd (fuel + 1) done hist x
        = Outcome.Converged x1 (done + 1) (distance eps x x1)
      ↔ distance eps x x1 ≤ tol) := by
  refine ⟨fun y z => rfl, fun a b h => by rw [relDiff, if_pos h],
    fun a b h => by rw [relDiff, if_neg (not_le.mpr h)], ?_, ?_⟩
  · intro h
    by_cases hd : distance eps x x1 ≤ tol
    · exact hd
    · exfalso
      by_cases hn : fuel = 0
      · subst hn
        rw [solveLoop_succ_last run tol eps upd done hist x x1 hr hd] at h
        exact absurd h (by simp)
      · rw [solveLoop_succ_step run tol eps upd fuel done hist x x1 hr hd hn] at h
        have := solveLoop_converged_iters_gt run tol eps upd fuel (done + 1)
          (some (x, x1)) (upd hist x x1) x1 (done + 1) (distance eps x x1) h
        omega
  · intro hd
    exact solveLoop_succ_conv run tol eps upd fuel done hist x x1 hr hd

theorem distance_criterion_and_convergence_witness :
    solveLoop (fun z => some z) 0 0 directUpdate 3 0 none ⟨[1], 2, 3⟩
        = Outcome.Converged ⟨[1], 2, 3⟩ 1 (distance 0 ⟨[1], 2, 3⟩ ⟨[1], 2, 3⟩) :=
  ((distance_criterion_and_convergence (fun z => some z) 0 0 directUpdate 2 0
      none ⟨[1], 2, 3⟩ ⟨[1], 2, 3⟩ rfl).2.2.2).mpr
    (by rw [distance_self])

theorem zipWith_damp_one (xs ys : List ℚ) (h : xs.length = ys.length) :
    List.zipWith (fun a b => a + 1 * (b - a)) xs ys = ys := by
  induction xs generalizing ys with
  | nil =>
    cases ys with
    | nil => rfl
    | cons b bs => exact absurd h (by simp)
  | cons a as ih =>
    cases ys with
    | nil => exact absurd h (by simp)
    | cons b bs =>
      simp only [List.zipWith_cons_cons]
      have hb : a + 1 * (b - a) = b := by ring
      rw [hb, ih bs (by simpa using h)]

/-- C3: in a non-converged iteration under dampened substitution with
damping factor w, the next guess written back into the tear stream is
`x_n + w * (x_{n+1} - x_n)` on every quantity family, and with w = 1 this
update coincides with direct substitution. -/
theorem dampened_substitution_update (run : Stream → Option Stream)
    (tol eps w : ℚ) (fuel done : ℕ) (hist : Option (Stream × Stream))
    (x x1 : Stream) (_hw : 0 < w ∧ w ≤ 1) (hr : run x = some x1)
    (hd : tol < distance eps x x1) :
    (solveLoop run tol eps (dampenedUpdate w) (fuel + 2) done hist x
        = solveLoop run tol eps (dampenedUpdate w) (fuel + 1) (done + 1)
            (some (x, x1)) (dampUpd w x x1)) ∧
    (dampUpd w x x1).flow
        = List.zipWith (fun a b => a + w * (b - a)) x.flow x1.flow ∧
    (dampUpd w x x1).T = x.T + w * (x1.T - x.T) ∧
    (dampUpd w x x1).P = x.P + w * (x1.P - x.P) ∧
    (x.flow.length = x1.flow.length → dampUpd 1 x x1 = x1) := by
  refine ⟨?_, rfl, rfl, rfl, ?_⟩
  · rw [solveLoop_succ_step run tol eps (dampenedUpdate w) (fuel + 1) done hist
      x x1 hr (not_le.mpr hd) (Nat.succ_ne_zero fuel)]
    rfl
  · intro hlen
    cases x1 with
    | mk f1 T1 P1 =>
      simp only [dampUpd, Stream.mk.injEq]
      refine ⟨zipWith_damp_one x.flow f1 hlen, by ring, by ring⟩

theorem dampened_substitution_update_witness :
    (dampUpd 1 ⟨[2, 3], 5, 7⟩ ⟨[4, 9], 6, 8⟩).flow
        = List.zipWith (fun a b => a + 1 * (b - a)) [2, 3] [4, 9] ∧
    dampUpd 1 ⟨[2, 3], 5, 7⟩ ⟨[4, 9], 6, 8⟩ = ⟨[4, 9], 6, 8⟩ := by
  have h := dampened_substitution_update (fun z => some (⟨[4, 9], 6, 8⟩ : Stream))
    0 0 1 0 0 none ⟨[2, 3], 5, 7⟩ ⟨[4, 9], 6, 8⟩
    ⟨by norm_num, le_refl 1⟩ rfl
    (by rw [distance]; norm_num [relDiff, flowDist])
  exact ⟨h.2.1, h.2.2.2.2 (by decide)⟩

theorem solveLoop_no_unitFailure (f : Stream → Stream) (tol eps : ℚ)
    (upd : UpdateRule) :
    ∀ (fuel done : ℕ) (hist : Option (Stream × Stream)) (x : Stream) (k : ℕ),
      solveLoop (fun z => some (f z)) tol eps upd fuel done hist x
        ≠ Outcome.UnitFailure k := by
  intro fuel
  induction fuel with
  | zero =>
    intro done hist x k
    rw [solveLoop_zero]
    simp
  | succ n ih =>
    intro done hist x k
    by_cases hd : distance eps x (f x) ≤ tol
    · rw [solveLoop_succ_conv (fun z => some (f z)) tol eps upd n done hist x
        (f x) rfl hd]
      simp
    · by_cases hn : n = 0
      · subst hn
        rw [solveLoop_succ_last (fun z => some (f z)) tol eps upd done hist x
          (f x) rfl hd]
        simp
      · rw [solveLoop_succ_step (fun z => some (f z)) tol eps upd n done hist x
          (f x) rfl hd hn]
        exact ih (done + 1) (some (x, f x)) (upd hist x (f x)) k

/-- C4: whenever the accelerated (Wegstein-style) update would be
numerically unstable (denominator near zero) or would produce a negative
flow, the Solver applies the dampened-substitution update for that
iteration instead of the extrapolated guess, and such a numerical issue
never escalates a loop whose units all run successfully to the
`UnitFailure` terminal state. -/
theorem acceleration_fallback (eps w : ℚ) (xp fxp x fx : Stream)
    (h : streamUnstable eps xp fxp x fx = true
        ∨ hasNegFlow (accelCandidate xp fxp x fx) = true) :
    accelUpd eps w xp fxp x fx = dampUpd w x fx ∧
    ∀ (f : Stream → Stream) (tol : ℚ) (fuel done : ℕ)
      (hist : Option (Stream × Stream)) (y : Stream) (k : ℕ),
      solveLoop (fun z => some (f z)) tol eps (acceleratedUpdate eps w)
          fuel done hist y
        ≠ Outcome.UnitFailure k := by
  constructor
  · rw [accelUpd]
    rcases h with h | h <;> simp [h]
  · intro f tol fuel done hist y k
    exact solveLoop_no_unitFailure f tol eps (acceleratedUpdate eps w)
      fuel done hist y k

theorem acceleration_fallback_witness :
    accelUpd 0 (1 / 2) ⟨[], 0, 0⟩ ⟨[], 0, 0⟩ ⟨[], 0, 0⟩ ⟨[], 0, 0⟩
      = dampUpd (1 / 2) ⟨[], 0, 0⟩ ⟨[], 0, 0⟩ :=
  (acceleration_fallback 0 (1 / 2) ⟨[], 0, 0⟩ ⟨[], 0, 0⟩ ⟨[], 0, 0⟩ ⟨[], 0, 0⟩
    (Or.inl (by simp [streamUnstable, wegUnstable]))).1

/-- C5: for every loop resolve that terminates in `MaxIterationsExceeded`,
the System surfaces a non-fatal `ConvergenceWarning` carrying the final
distance and the iteration count and still returns the best-effort
non-converged stream state to the caller. -/
theorem convergence_warning_surfaced (run : Stream → Option Stream)
    (cfg : Config) (upd : UpdateRule) (x0 x : Stream) (k : ℕ) (d : ℚ)
    (h : solve run cfg upd x0 = Outcome.MaxIterationsExceeded x k d) :
    simulate run cfg upd x0 = SimResult.warned ⟨d, k⟩ x := by
  rw [simulate, h]

theorem convergence_warning_surfaced_witness :
    simulate (fun z => some z) ⟨-1, 1, 0⟩ directUpdate ⟨[], 0, 0⟩
      = SimResult.warned ⟨0, 1⟩ ⟨[], 0, 0⟩ :=
  convergence_warning_surfaced (fun z => some z) ⟨-1, 1, 0⟩ directUpdate
    ⟨[], 0, 0⟩ ⟨[], 0, 0⟩ 1 0 (by
      have h := solveLoop_succ_last (fun z => some z) (-1) 0 directUpdate 0
        none ⟨[], 0, 0⟩ ⟨[], 0, 0⟩ rfl (by rw [distance_self]; norm_num)
      rw [solve]
      simpa [directUpdate, distance_self] using h)

/-- C6: re-running a converged System with unchanged inputs and
configuration changes no stream value: the self-consistent fixed-point
state is accepted again after one comparison pass, and the distance
between the state before and after the re-run is zero. -/
theorem converged_system_idempotent (cfg : Config) (upd : UpdateRule)
    (f : Stream → Stream) (x : Stream) (hfix : f x = x) (htol : 0 ≤ cfg.tol)
    (hN : 0 < cfg.maxiter) :
    solve (fun z => some (f z)) cfg upd x = Outcome.Converged x 1 0 ∧
    distance cfg.eps x x = 0 := by
  have hd : distance cfg.eps x (f x) = 0 := by rw [hfix, distance_self]
  obtain ⟨m, hm⟩ := Nat.exists_eq_add_of_lt hN
  constructor
  · rw [solve, hm]
    have h1 : (0 : ℕ) + m + 1 = m + 1 := by omega
    rw [h1]
    have h2 := solveLoop_succ_conv (fun z => some (f z)) cfg.tol cfg.eps upd m 0
      none x (f x) rfl (le_trans (le_of_eq hd) htol)
    rw [h2, hfix, distance_self]
  · exact distance_self cfg.eps x

theorem converged_system_idempotent_witness :
    solve (fun z => some z) ⟨0, 5, 0⟩ directUpdate ⟨[1], 2, 3⟩
        = Outcome.Converged ⟨[1], 2, 3⟩ 1 0 ∧
    distance 0 ⟨[1], 2, 3⟩ ⟨[1], 2, 3⟩ = 0 :=
  converged_system_idempotent ⟨0, 5, 0⟩ directUpdate (fun z => z) ⟨[1], 2, 3⟩
    rfl (le_refl 0) (by decide)

/-- Modelled from the spec: the Stream invariant of the data model, every
composition quantity is non-negative (spec section 3). -/
def flowsNonneg (s : Stream) : Prop := ∀ q ∈ s.flow, 0 ≤ q

/-- Modelled from the spec: the total flow of a stream, the sum of its
component quantities. -/
def totalFlow (s : Stream) : ℚ := s.flow.sum

/-- Modelled from the spec: a Unit's run guarded by the `UnitRunError`
policy (spec section 7): a run that would produce "an invalid numeric
result (e.g., negative flow)" raises the error instead of committing the
invalid stream. -/
def checkedRun (f : Stream → Stream) (x : Stream) : Option Stream :=
  if hasNegFlow (f x) then none else some (f x)

theorem zipWith_nonneg (g : ℚ → ℚ → ℚ)
    (hg : ∀ a b : ℚ, 0 ≤ a → 0 ≤ b → 0 ≤ g a b) :
    ∀ l1 l2 : List ℚ, (∀ q ∈ l1, 0 ≤ q) → (∀ q ∈ l2, 0 ≤ q) →
      ∀ q ∈ List.zipWith g l1 l2, 0 ≤ q := by
  intro l1
  induction l1 with
  | nil =>
    intro l2 _ _ q hq
    simp at hq
  | cons a as ih =>
    intro l2 h1 h2 q hq
    cases l2 with
    | nil => simp at hq
    | cons b bs =>
      rw [List.zipWith_cons_cons] at hq
      rcases List.mem_cons.mp hq with h | h
      · subst h
        exact hg a b (h1 a (by simp)) (h2 b (by simp))
      · exact ih bs (fun q hq => h1 q (by simp [hq]))
          (fun q hq => h2 q (by simp [hq])) q h

theorem dampUpd_nonneg (w : ℚ) (hw0 : 0 ≤ w) (hw1 : w ≤ 1) (x x1 : Stream)
    (hx : flowsNonneg x) (hx1 : flowsNonneg x1) :
    flowsNonneg (dampUpd w x x1) := by
  intro q hq
  refine zipWith_nonneg _ ?_ x.flow x1.flow hx hx1 q hq
  intro a b ha hb
  have he : a + w * (b - a) = (1 - w) * a + w * b := by ring
  rw [he]
  have h1 : 0 ≤ (1 - w) * a := mul_nonneg (by linarith) ha
  have h2 : 0 ≤ w * b := mul_nonneg hw0 hb
  linarith

theorem nonneg_of_not_hasNegFlow (s : Stream) (h : hasNegFlow s = false) :
    flowsNonneg s := by
  intro q hq
  rw [hasNegFlow, List.any_eq_false] at h
  have := h q hq
  simp at this
  exact this

theorem checkedRun_nonneg (f : Stream → Stream) (x y : Stream)
    (h : checkedRun f x = some y) : flowsNonneg y := by
  rw [checkedRun] at h
  by_cases hneg : hasNegFlow (f x) = true
  · rw [if_pos hneg] at h
    exact absurd h (by simp)
  · rw [if_neg hneg] at h
    have hy : f x = y := Option.some.inj h
    rw [← hy]
    exact nonneg_of_not_hasNegFlow (f x) (Bool.not_eq_true _ |>.mp hneg)

theorem accelUpd_nonneg (eps w : ℚ) (hw0 : 0 ≤ w) (hw1 : w ≤ 1)
    (xp fxp x fx : Stream) (hx : flowsNonneg x) (hfx : flowsNonneg fx) :
    flowsNonneg (accelUpd eps w xp fxp x fx) := by
  rw [accelUpd]
  by_cases hc : (streamUnstable eps xp fxp x fx
      || hasNegFlow (accelCandidate xp fxp x fx)) = true
  · simp only [hc, if_true]
    exact dampUpd_nonneg w hw0 hw1 x fx hx hfx
  · simp only [hc, if_false]
    have hb : hasNegFlow (accelCandidate xp fxp x fx) = false := by
      rcases Bool.or_eq_false_iff.mp (Bool.not_eq_true _ |>.mp hc) with ⟨_, h2⟩
      exact h2
    exact nonneg_of_not_hasNegFlow _ hb

theorem solveLoop_state_nonneg (f : Stream → Stream) (tol eps w : ℚ)
    (hw0 : 0 ≤ w) (hw1 : w ≤ 1) :
    ∀ (fuel done : ℕ) (hist : Option (Stream × Stream)) (x : Stream),
      flowsNonneg x →
      ∀ y : Stream,
        (solveLoop (checkedRun f) tol eps (dampenedUpdate w) fuel done hist
            x).state = some y →
        flowsNonneg y := by
  intro fuel
  induction fuel with
  | zero =>
    intro done hist x hx y hy
    rw [solveLoop_zero] at hy
    have := Option.some.inj hy
    rw [← this]
    exact hx
  | succ n ih =>
    intro done hist x hx y hy
    cases hr : checkedRun f x with
    | none =>
      rw [solveLoop_succ_fail (checkedRun f) tol eps (dampenedUpdate w) n done
        hist x hr] at hy
      exact absurd hy (by simp [Outcome.state])
    | some x1 =>
      have hx1 : flowsNonneg x1 := checkedRun_nonneg f x x1 hr
      by_cases hd : distance eps x x1 ≤ tol
      · rw [solveLoop_succ_conv (checkedRun f) tol eps (dampenedUpdate w) n
          done hist x x1 hr hd] at hy
        have := Option.some.inj hy
        rw [← this]
        exact hx1
      · by_cases hn : n = 0
        · subst hn
          rw [solveLoop_succ_last (checkedRun f) tol eps (dampenedUpdate w)
            done hist x x1 hr hd] at hy
          have := Option.some.inj hy
          rw [← this]
          exact dampUpd_nonneg w hw0 hw1 x x1 hx hx1
        · rw [solveLoop_succ_step (checkedRun f) tol eps (dampenedUpdate w) n
            done hist x x1 hr hd hn] at hy
          exact ih (done + 1) (some (x, x1)) (dampUpd w x x1)
            (dampUpd_nonneg w hw0 hw1 x x1 hx hx1) y hy

/-- C7: every operation touching a stream preserves the stream invariant:
construction from non-negative quantities, a checked unit run (which
raises `UnitRunError` rather than writing a negative flow), and the
dampened and accelerated solver updates of the tear-stream guess all
leave every composition quantity non-negative and the total flow
non-negative; consequently every stream state a loop resolve reports is
non-negative with non-negative total flow. -/
theorem stream_invariant_preserved (w eps : ℚ) (f : Stream → Stream)
    (hw : 0 ≤ w ∧ w ≤ 1) :
    (∀ (l : List ℚ) (T P : ℚ), (∀ q ∈ l, 0 ≤ q) → flowsNonneg ⟨l, T, P⟩) ∧
    (∀ s : Stream, flowsNonneg s → 0 ≤ totalFlow s) ∧
    (∀ x y : Stream, checkedRun f x = some y →
        flowsNonneg y ∧ 0 ≤ totalFlow y) ∧
    (∀ x x1 : Stream, flowsNonneg x → flowsNonneg x1 →
        flowsNonneg (dampUpd w x x1) ∧ 0 ≤ totalFlow (dampUpd w x x1)) ∧
    (∀ xp fxp x fx : Stream, flowsNonneg x → flowsNonneg fx →
        flowsNonneg (accelUpd eps w xp fxp x fx)) ∧
    (∀ (tol : ℚ) (fuel done : ℕ) (hist : Option (Stream × Stream))
        (x y : Stream), flowsNonneg x →
        (solveLoop (checkedRun f) tol eps (dampenedUpdate w) fuel done hist
            x).state = some y →
        flowsNonneg y ∧ 0 ≤ totalFlow y) := by
  have hsum : ∀ s : Stream, flowsNonneg s → 0 ≤ totalFlow s := by
    intro s hs
    exact List.sum_nonneg hs
  refine ⟨fun l T P h => h, hsum, ?_, ?_, ?_, ?_⟩
  · intro x y h
    have := checkedRun_nonneg f x y h
    exact ⟨this, hsum y this⟩
  · intro x x1 hx hx1
    have := dampUpd_nonneg w hw.1 hw.2 x x1 hx hx1
    exact ⟨this, hsum _ this⟩
  · intro xp fxp x fx hx hfx
    exact accelUpd_nonneg eps w hw.1 hw.2 xp fxp x fx hx hfx
  · intro tol fuel done hist x y hx hy
    have := solveLoop_state_nonneg f tol eps w hw.1 hw.2 fuel done hist x hx y hy
    exact ⟨this, hsum y this⟩

theorem stream_invariant_preserved_witness :
    flowsNonneg (dampUpd (1 / 2) ⟨[1, 2], 0, 0⟩ ⟨[0, 4], 1, 1⟩) ∧
    0 ≤ totalFlow (dampUpd (1 / 2) ⟨[1, 2], 0, 0⟩ ⟨[0, 4], 1, 1⟩) :=
  (stream_invariant_preserved (1 / 2) 0 (fun s => s)
      ⟨by norm_num, by norm_num⟩).2.2.2.1
    ⟨[1, 2], 0, 0⟩ ⟨[0, 4], 1, 1⟩ (by norm_num [flowsNonneg])
    (by norm_num [flowsNonneg])

/-- Modelled from the spec: a stream's reference to its source and sink
units by identifier, following the index-based registry of design note
section 9. -/
structure StreamRef where
  source : ℕ
  sink : ℕ
  deriving Repr, DecidableEq

/-- Modelled from the spec: the `GraphError` raised at build time for a
"malformed topology (dangling references)" (spec section 7). -/
inductive GraphError
  | danglingReference (unitId : ℕ)
  deriving Repr, DecidableEq

/-- Unit identifiers a stream reference points at. -/
def StreamRef.endpoints (r : StreamRef) : List ℕ := [r.source, r.sink]

/-- Modelled from the spec: unit identifiers referenced by some stream but
absent from the unit collection. -/
def danglingUnits (units : List ℕ) (refs : List StreamRef) : List ℕ :=
  (refs.flatMap StreamRef.endpoints).filter (fun u => decide (u ∉ units))

/-- Modelled from the spec: the flowsheet produced by a successful graph
build. -/
structure Flowsheet where
  units : List ℕ
  refs : List StreamRef
  deriving Repr, DecidableEq

/-- Modelled from the spec: building the Flowsheet Graph, which "fails
with GraphError if a Stream reference points to a Unit absent from the
collection" (spec section 4.1). -/
def buildGraph (units : List ℕ) (refs : List StreamRef) :
    Except GraphError Flowsheet :=
  match danglingUnits units refs with
  | [] => Except.ok ⟨units, refs⟩
  | u :: _ => Except.error (GraphError.danglingReference u)

/-- Modelled from the spec: System construction, which builds the graph
first and propagates a structural error immediately, aborting before any
simulation runs (spec sections 4.4 and 7). -/
def buildSystem (units : List ℕ) (refs : List StreamRef) :
    Except GraphError Flowsheet :=
  Except.map (fun g => g) (buildGraph units refs)

theorem danglingUnits_eq_nil (units : List ℕ) (refs : List StreamRef) :
    danglingUnits units refs = [] ↔
      ∀ r ∈ refs, r.source ∈ units ∧ r.sink ∈ units := by
  rw [danglingUnits, List.filter_eq_nil_iff]
  constructor
  · intro h r hr
    constructor
    · by_contra hs
      have hm : r.source ∈ refs.flatMap StreamRef.endpoints :=
        List.mem_flatMap.mpr ⟨r, hr, by simp [StreamRef.endpoints]⟩
      have := h _ hm
      simp [hs] at this
    · by_contra hs
      have hm : r.sink ∈ refs.flatMap StreamRef.endpoints :=
        List.mem_flatMap.mpr ⟨r, hr, by simp [StreamRef.endpoints]⟩
      have := h _ hm
      simp [hs] at this
  · intro h u hu
    obtain ⟨r, hr, hmem⟩ := List.mem_flatMap.mp hu
    have hends : u = r.source ∨ u = r.sink := by
      simpa [StreamRef.endpoints] using hmem
    rcases hends with h1 | h1 <;> subst h1 <;> simp [(h r hr).1, (h r hr).2]

theorem buildSystem_error_iff (units : List ℕ) (refs : List StreamRef) :
    (∃ e, buildSystem units refs = Except.error e) ↔
      danglingUnits units refs ≠ [] := by
  rw [buildSystem, buildGraph]
  cases h : danglingUnits units refs with
  | nil => simp [Except.map, h]
  | cons u rest => simp [Except.map, h]

/-- C8: building the Flowsheet Graph during System construction fails
with a `GraphError` exactly when some stream reference points to a unit
absent from the given unit collection, and such a failure yields no
system at all (construction aborts; the error is surfaced at build time,
before any simulation could run). -/
theorem graph_error_exactly_on_dangling (units : List ℕ)
    (refs : List StreamRef) :
    ((∃ e, buildSystem units refs = Except.error e) ↔
      ∃ r ∈ refs, r.source ∉ units ∨ r.sink ∉ units) ∧
    ∀ e, buildSystem units refs = Except.error e →
      ∀ s, buildSystem units refs ≠ Except.ok s := by
  constructor
  · rw [buildSystem_error_iff, ne_eq, danglingUnits_eq_nil]
    push_neg
    constructor
    · rintro ⟨r, hr, h⟩
      refine ⟨r, hr, ?_⟩
      by_cases hs : r.source ∈ units
      · exact Or.inr (h hs)
      · exact Or.inl hs
    · rintro ⟨r, hr, h⟩
      refine ⟨r, hr, ?_⟩
      intro hs
      rcases h with h | h
      · exact absurd hs h
      · exact h
  · intro e he s
    rw [he]
    simp

theorem graph_error_exactly_on_dangling_witness :
    ∃ e, buildSystem [0] [⟨0, 1⟩] = Except.error e :=
  (graph_error_exactly_on_dangling [0] [⟨0, 1⟩]).1.mpr
    ⟨⟨0, 1⟩, by simp, Or.inr (by simp)⟩

/-- Modelled from the spec: the capability-tagged specification variant
attached to a Unit, {None, PreRunAdjustment,
PreRunAdjustmentWithAutoRun} (spec sections 6 and 9); the tutorial's
`add_specification(run=True)` is the auto-run variant, while a plain
specification's body must trigger the balance run itself. -/
inductive SpecAttachment
  | NoSpec
  | PreRunAdjustment (adjust : Stream → Stream)
  | PreRunAdjustmentWithAutoRun (adjust : Stream → Stream)

/-- Observable events while simulating one unit. -/
inductive UnitEvent
  | specCall
  | runCall
  deriving Repr, DecidableEq

/-- Modelled from the spec: simulating one Unit (spec section 6): an
attached specification is "invoked immediately before that Unit's run";
with the auto-run flag on, the mass/energy balance executes automatically
right after the specification returns, on the adjusted streams; with the
flag off, the simulation performs no automatic run and the specification
body is responsible for triggering it. -/
def simulateUnit (runF : Stream → Stream) :
    SpecAttachment → Stream → Stream × List UnitEvent
  | SpecAttachment.NoSpec, x => (runF x, [UnitEvent.runCall])
  | SpecAttachment.PreRunAdjustment adjust, x =>
      (adjust x, [UnitEvent.specCall])
  | SpecAttachment.PreRunAdjustmentWithAutoRun adjust, x =>
      (runF (adjust x), [UnitEvent.specCall, UnitEvent.runCall])

/-- C9: a unit with an attached specification invokes the specification
immediately before its balance run; under `add_specification(run=True)`
the balance runs automatically right after the specification completes,
on the adjusted streams, so the body need not call the run itself; with
the flag off no automatic run happens and a body that calls `_run` itself
reproduces the auto-run result; a unit without a specification simply
runs. -/
theorem specification_before_run (runF adjust : Stream → Stream)
    (x : Stream) :
    simulateUnit runF (SpecAttachment.PreRunAdjustmentWithAutoRun adjust) x
        = (runF (adjust x), [UnitEvent.specCall, UnitEvent.runCall]) ∧
    simulateUnit runF (SpecAttachment.PreRunAdjustment adjust) x
        = (adjust x, [UnitEvent.specCall]) ∧
    (simulateUnit runF
        (SpecAttachment.PreRunAdjustment (fun s => runF (adjust s))) x).1
      = (simulateUnit runF
          (SpecAttachment.PreRunAdjustmentWithAutoRun adjust) x).1 ∧
    simulateUnit runF SpecAttachment.NoSpec x = (runF x, [UnitEvent.runCall]) :=
  ⟨rfl, rfl, rfl, rfl⟩

/-- Modelled from the spec: the yearly life-cycle inventory of a simulated
system under one impact key, as exercised in the LCA tutorial: feed
streams paired with their characterization factors, the net yearly
electricity with its factor, and heat-utility flows paired with their
factors. -/
structure Inventory where
  feeds : List (ℚ × ℚ)
  electricity : ℚ
  electricityCF : ℚ
  heatUtilities : List (ℚ × ℚ)
  deriving Repr, DecidableEq

/-- Modelled from the spec: `System.get_total_feeds_impact(key)`, the sum
over feed streams of yearly flow times characterization factor (LCA
tutorial, manual displacement allocation). -/
def get_total_feeds_impact (inv : Inventory) : ℚ :=
  (inv.feeds.map (fun p => p.1 * p.2)).sum

/-- Modelled from the spec: `System.get_net_electricity_impact(key)`, the
net yearly electricity (negative when the system displaces grid
electricity) times its characterization factor. -/
def get_net_electricity_impact (inv : Inventory) : ℚ :=
  inv.electricity * inv.electricityCF

/-- Modelled from the spec: `System.get_net_heat_utility_impact`, summed
over the heat-utility agents carrying characterization factors. -/
def get_net_heat_utility_impact (inv : Inventory) : ℚ :=
  (inv.heatUtilities.map (fun p => p.1 * p.2)).sum

/-- Modelled from the spec: `System.get_net_impact(key)`, the automated
net yearly impact with displacement included, covering the same system
boundary the LCA tutorial sums manually: feed impacts, net electricity
impact and net heat-utility impacts. -/
def get_net_impact (inv : Inventory) : ℚ :=
  get_total_feeds_impact inv + get_net_electricity_impact inv
    + get_net_heat_utility_impact inv

/-- C10: for a simulated system whose characterization factors are
defined on feeds and electricity only (no heat-utility factors, as in
the tutorial's sugarcane system), the automated `get_net_impact(key)`
equals the manual displacement-allocation sum
`get_total_feeds_impact(key) + get_net_electricity_impact(key)`. -/
theorem net_impact_refines_manual_sum (inv : Inventory)
    (h : inv.heatUtilities = []) :
    get_net_impact inv
      = get_total_feeds_impact inv + get_net_electricity_impact inv := by
  rw [get_net_impact, get_net_heat_utility_impact, h]
  simp

theorem net_impact_refines_manual_sum_witness :
    get_net_impact ⟨[(2, 3), (5, 1)], -4, 2, []⟩
      = get_total_feeds_impact ⟨[(2, 3), (5, 1)], -4, 2, []⟩
        + get_net_electricity_impact ⟨[(2, 3), (5, 1)], -4, 2, []⟩ :=
  net_impact_refines_manual_sum ⟨[(2, 3), (5, 1)], -4, 2, []⟩ rfl

end BioSteam
